import Mathlib

/-!
Shallow embedding of the extraction tool of `ctfer-io/monitoring`
(`cmd/extract`, single Go file): slash-path arithmetic (`path.Join`,
`path.Clean`, `path.Dir`), the local filesystem state touched by `untar`,
the tar unpacking loop `untar`, the readiness poll `waitForPodReady`
(built on `wait.PollUntilContextTimeout`), the remote stream stage
`copyFromPod`, and the orchestrating `run` function.
-/

/-- One path segment (the text between two slashes of a Go slash path). -/
abbrev Seg := String

/-- A Go slash path: whether it is rooted (starts with a slash) and its
list of segments. -/
structure GoPath where
  rooted : Bool
  segs : List Seg
deriving DecidableEq, Repr

/-- True for a segment that Go's `path.Clean` keeps unchanged: not empty,
not `.`, not `..`. -/
def isNormalSeg (s : Seg) : Bool :=
  !(s = "" || s = "." || s = "..")

/-- One step of Go's `path.Clean` over the segments, pushing segment `s`
onto the (reversed) output `acc`: empty and `.` segments are dropped, `..`
pops a previous real segment, pops to nothing when rooted, and is kept
when there is nothing to pop in a relative path. -/
def cleanPush (rooted : Bool) (acc : List Seg) (s : Seg) : List Seg :=
  if s = "" || s = "." then acc
  else if s = ".." then
    match acc with
    | [] => if rooted then [] else [".."]
    | a :: rest => if a = ".." then s :: a :: rest else rest
  else s :: acc

/-- Go's `path.Clean` on a segment list. -/
def cleanSegs (rooted : Bool) (l : List Seg) : List Seg :=
  (l.foldl (cleanPush rooted) []).reverse

/-- Go's `path.Clean`. -/
def GoPath.clean (p : GoPath) : GoPath :=
  ⟨p.rooted, cleanSegs p.rooted p.segs⟩

/-- Go's `path.Join p q` for a relative `q`: concatenate the segments and
clean the result (`Join` joins the elements with a slash and calls
`Clean`). -/
def GoPath.join (p q : GoPath) : GoPath :=
  GoPath.clean ⟨p.rooted, p.segs ++ q.segs⟩

/-- Go's `path.Dir`: all but the last element, cleaned. -/
def GoPath.dir (p : GoPath) : GoPath :=
  GoPath.clean ⟨p.rooted, p.segs.dropLast⟩

/-- The slice of the local filesystem the unpacker touches: the set of
directories that exist (as a list, duplicates harmless) and an
association list from file path to file content (most recent write
first), content being a byte list. -/
structure FS where
  dirs : List GoPath
  files : List (GoPath × List Nat)
deriving DecidableEq, Repr

/-- The empty local filesystem. -/
def FS.empty : FS := ⟨[], []⟩

/-- All nonempty prefixes of a segment list, as paths: the directories
`os.MkdirAll` guarantees to exist afterwards. -/
def prefixesOf (rooted : Bool) (segs : List Seg) : List GoPath :=
  (List.range segs.length).map (fun i => ⟨rooted, segs.take (i + 1)⟩)

/-- `os.MkdirAll`: the directory and all its ancestors exist afterwards;
files are untouched. -/
def FS.mkdirAll (fs : FS) (p : GoPath) : FS :=
  ⟨prefixesOf p.rooted p.segs ++ fs.dirs, fs.files⟩

/-- `os.Create` followed by writing `c`: the newest content at `p`
shadows any older one; directories are untouched. -/
def FS.write (fs : FS) (p : GoPath) (c : List Nat) : FS :=
  ⟨fs.dirs, (p, c) :: fs.files⟩

/-- Association-list lookup of a file's current content. -/
def lookupAssoc : List (GoPath × List Nat) → GoPath → Option (List Nat)
  | [], _ => none
  | (q, c) :: rest, p => if q = p then some c else lookupAssoc rest p

/-- Content of the file at `p`, if any. -/
def FS.lookupFile (fs : FS) (p : GoPath) : Option (List Nat) :=
  lookupAssoc fs.files p

/-- The tar type flags `untar` distinguishes: `tar.TypeDir`,
`tar.TypeReg`, and every other flag (hit the `switch` default and are
skipped). -/
inductive Typeflag
  | dir
  | reg
  | other
deriving DecidableEq, Repr

/-- One tar header as `untar` reads it: entry name (relative slash path,
as segments), type flag, and declared content size. -/
structure TarHdr where
  name : List Seg
  typeflag : Typeflag
  size : Nat
deriving DecidableEq, Repr

/-- One item produced by `tar.NewReader(r).Next()`: a well-formed entry
together with the bytes the reader can actually deliver for it (fewer
than `size` when the stream is truncated mid-content), or a malformed
entry on which `Next` returns a non-EOF error. -/
inductive TarItem
  | entry (hdr : TarHdr) (avail : List Nat)
  | corrupt
deriving DecidableEq, Repr

/-- The two error exits of `untar`: `tr.Next()` failing (malformed
entry), or `io.Copy` failing mid-file (truncated content). -/
inductive UntarError
  | nextError
  | copyError
deriving DecidableEq, Repr

/-- One iteration of the `untar` loop body on a successfully read item:
directory entries run `os.MkdirAll(path.Join(dest, hdr.Name), 0755)`;
regular files run `os.MkdirAll(path.Dir(target))`, create/truncate the
target and copy at most `hdr.Size` bytes into it, failing when the
stream delivers fewer; every other type flag falls through the `switch`
and is skipped. -/
def untarStep (dest : GoPath) (fs : FS) (hdr : TarHdr) (avail : List Nat) :
    FS × Option UntarError :=
  let target := dest.join ⟨false, hdr.name⟩
  match hdr.typeflag with
  | Typeflag.dir => (fs.mkdirAll target, none)
  | Typeflag.reg =>
      let fs1 := fs.mkdirAll target.dir
      let fs2 := fs1.write target (avail.take hdr.size)
      if avail.length < hdr.size then (fs2, some UntarError.copyError)
      else (fs2, none)
  | Typeflag.other => (fs, none)

/-- The `untar` loop: read items until end-of-stream (success), stopping
with an error at the first malformed entry or the first failing copy.
The filesystem reached so far is carried along; nothing is rolled back
on error. -/
def untar (dest : GoPath) : FS → List TarItem → FS × Option UntarError
  | fs, [] => (fs, none)
  | fs, TarItem.corrupt :: _ => (fs, some UntarError.nextError)
  | fs, TarItem.entry hdr avail :: rest =>
      match untarStep dest fs hdr avail with
      | (fs1, none) => untar dest fs1 rest
      | (fs1, some e) => (fs1, some e)

example :
    untar ⟨true, ["out"]⟩ FS.empty
      [TarItem.entry ⟨["a"], Typeflag.dir, 0⟩ [],
       TarItem.entry ⟨["a", "f"], Typeflag.reg, 2⟩ [3, 4]] =
    (⟨[⟨true, ["out"]⟩, ⟨true, ["out", "a"]⟩, ⟨true, ["out"]⟩, ⟨true, ["out", "a"]⟩],
      [(⟨true, ["out", "a", "f"]⟩, [3, 4])]⟩, none) := by decide

/-- The condition types a pod status condition can carry, collapsed to
the one the code consults (`corev1.PodReady`) versus every other type. -/
inductive PodCondType
  | ready
  | other
deriving DecidableEq, Repr

/-- Result of one `Pods(namespace).Get` call during polling: a pod with
its status conditions (condition type paired with whether its status is
`True`), a not-found error, or any other API error. -/
inductive GetResult
  | pod (conds : List (PodCondType × Bool))
  | notFound
  | otherErr
deriving DecidableEq, Repr

/-- Result of one evaluation of the poll condition function: `(true,
nil)`, `(false, nil)`, or `(false, err)`. -/
inductive FetchResult
  | ready
  | notReady
  | fetchErr
deriving DecidableEq, Repr

/-- Outcome of `wait.PollUntilContextTimeout`, tagged with the time (in
seconds from the start of the wait) at which it returns: condition true,
context deadline exceeded, or a condition error propagated immediately. -/
inductive WaitResult
  | ok (t : Nat)
  | errTimeout (t : Nat)
  | errFetch (t : Nat)
deriving DecidableEq, Repr

/-- The polling loop of `wait.PollUntilContextTimeout` with
`immediate = true`: the condition is evaluated at time `t`, then every
`interval` seconds, as long as the deadline (which bounds the number `n`
of remaining attempts) has not elapsed; when the attempts are exhausted
the wrapped context expires at `deadline` and its deadline-exceeded
error is returned. -/
def pollLoop (fetch : Nat → FetchResult) (interval deadline : Nat) :
    Nat → Nat → WaitResult
  | _, 0 => WaitResult.errTimeout deadline
  | t, Nat.succ n =>
      match fetch t with
      | FetchResult.ready => WaitResult.ok t
      | FetchResult.fetchErr => WaitResult.errFetch t
      | FetchResult.notReady => pollLoop fetch interval deadline (t + interval) n

/-- `wait.PollUntilContextTimeout(ctx, interval, deadline, true, cond)`
on a non-cancelled parent context: attempts run at times `0, interval,
2*interval, ...` strictly below `deadline`, and the timeout error
surfaces at `deadline`. -/
def pollUntilContextTimeout (interval deadline : Nat)
    (fetch : Nat → FetchResult) : WaitResult :=
  pollLoop fetch interval deadline 0 ((deadline + interval - 1) / interval)

/-- The poll condition body of `waitForPodReady`: any `Get` error
(not-found included) is returned as `(false, err)`, which
`PollUntilContextTimeout` propagates immediately; otherwise the pod is
ready exactly when some condition has type `PodReady` and status
`True`. -/
def podReadyCondition : GetResult → FetchResult
  | GetResult.notFound => FetchResult.fetchErr
  | GetResult.otherErr => FetchResult.fetchErr
  | GetResult.pod conds =>
      if conds.any (fun c => (match c.1 with
          | PodCondType.ready => true
          | PodCondType.other => false) && c.2) then FetchResult.ready
      else FetchResult.notReady

/-- `waitForPodReady`: poll the pod status every 2 seconds for up to 120
seconds. The Go function has no return value: the poll outcome computed
here is produced but never consulted by the caller. -/
def waitForPodReady (get : Nat → GetResult) : WaitResult :=
  pollUntilContextTimeout 2 120 (fun t => podReadyCondition (get t))

/-- A Go context as the extractor could construct it: the background
context, or a context derived with a cancellation capability (as
`signal.NotifyContext` or `context.WithCancel` would give). -/
inductive GoContext
  | background
  | withCancelSignal (parent : GoContext)
deriving DecidableEq, Repr

/-- Whether the context can ever be cancelled: `context.Background()`
has no cancellation capability. -/
def GoContext.cancellable : GoContext → Bool
  | GoContext.background => false
  | GoContext.withCancelSignal _ => true

/-- The context `run` constructs (`ctx := context.Background()`) and
passes to `waitForPodReady` and to `copyFromPod` /
`StreamWithContext`. -/
def runCtx : GoContext := GoContext.background

/-- The environment of one `copyFromPod` call: whether
`remotecommand.NewSPDYExecutor` fails, whether `StreamWithContext`
returns an error (nonzero remote exit or transport error), the stdout
bytes buffered (already parsed into tar items), and the buffered stderr
text. -/
structure RemoteExec where
  spdyErr : Option String
  streamErr : Option String
  stdout : List TarItem
  stderr : String

/-- The error exits of `copyFromPod`: executor construction failing
(returned unchanged), the stream failing (wrapped together with the
captured stderr text), or `untar` failing on the buffered stdout. -/
inductive CopyError
  | spdyError (msg : String)
  | streamError (msg : String) (stderr : String)
  | archiveError (e : UntarError)
deriving DecidableEq, Repr

/-- `copyFromPod`: build the SPDY executor, run the remote `tar cf - -C
/data .` buffering stdout and stderr, and on stream success hand the
full buffered stdout to `untar` against `localDir`. -/
def copyFromPod (ex : RemoteExec) (localDir : GoPath) (disk : FS) :
    FS × Option CopyError :=
  match ex.spdyErr with
  | some m => (disk, some (CopyError.spdyError m))
  | none =>
      match ex.streamErr with
      | some m => (disk, some (CopyError.streamError m ex.stderr))
      | none =>
          match untar localDir disk ex.stdout with
          | (fs, none) => (fs, none)
          | (fs, some e) => (fs, some (CopyError.archiveError e))

/-- The environment of one `run` invocation: whether `getClient`
succeeds, whether `Pods.Create` succeeds, the trace of `Get` results the
readiness poll observes, the remote execution outcome, whether
`Pods.Delete` succeeds, and the initial local filesystem. -/
structure Env where
  clientOk : Bool
  createOk : Bool
  get : Nat → GetResult
  exec : RemoteExec
  deleteOk : Bool
  disk : FS

/-- The error `run` returns, by failing stage. -/
inductive RunError
  | clientError
  | createError
  | copyError (e : CopyError)
  | deleteError
deriving DecidableEq, Repr

/-- Observable outcome of `run`: its returned error, which stages were
reached, whether `Pods.Delete` was invoked, and the final local
filesystem. -/
structure RunOutcome where
  err : Option RunError
  waitCalled : Bool
  streamCalled : Bool
  deleteCalled : Bool
  fs : FS

/-- The orchestrator `run`: get the client, create the pod, call
`waitForPodReady` (whose result the Go code discards — the function
returns nothing and `run` proceeds unconditionally), run `copyFromPod`,
and only on its success delete the pod, returning the delete error if
deletion fails. -/
def run (env : Env) (localDir : GoPath) : RunOutcome :=
  if env.clientOk = false then ⟨some RunError.clientError, false, false, false, env.disk⟩
  else if env.createOk = false then ⟨some RunError.createError, false, false, false, env.disk⟩
  else
    let _discarded := waitForPodReady env.get
    match copyFromPod env.exec localDir env.disk with
    | (fs, some e) => ⟨some (RunError.copyError e), true, true, false, fs⟩
    | (fs, none) =>
        if env.deleteOk then ⟨none, true, true, true, fs⟩
        else ⟨some RunError.deleteError, true, true, true, fs⟩

/-- Modelled from the spec: the repository does not contain the remote
archiving side (`tar cf - -C /data .` runs inside the busybox
container), so the source volume and the stream the archiving command
serializes it to are modelled from the spec's words. A source tree is a
set of directories and regular files given by their relative paths
under the volume root, files carrying their byte content. -/
structure SrcTree where
  dirs : List (List Seg)
  files : List (List Seg × List Nat)

/-- A directory entry of the archive stream, from a relative path. -/
def mkDirItem (d : List Seg) : TarItem :=
  TarItem.entry ⟨d, Typeflag.dir, 0⟩ []

/-- A regular-file entry of the archive stream, from a relative path and
its content. -/
def mkFileItem (f : List Seg × List Nat) : TarItem :=
  TarItem.entry ⟨f.1, Typeflag.reg, f.2.length⟩ f.2

/-- Modelled from the spec: the archiving command serializes the tree
under the volume root into one entry per node with its relative path —
first the root directory itself (the `./` entry `tar` emits), then the
directories, then the regular files with their full content. -/
def tarOf (t : SrcTree) : List TarItem :=
  TarItem.entry ⟨[], Typeflag.dir, 0⟩ [] ::
    (t.dirs.map mkDirItem ++ t.files.map mkFileItem)

example :
    (untar ⟨true, ["out"]⟩ FS.empty
      (tarOf ⟨[["a"]], [(["a", "f"], [3, 4]), (["g"], [9])]⟩)).2 = none := by decide

example :
    lookupAssoc (untar ⟨true, ["out"]⟩ FS.empty
      (tarOf ⟨[["a"]], [(["a", "f"], [3, 4]), (["g"], [9])]⟩)).1.files
      ⟨true, ["out", "a", "f"]⟩ = some [3, 4] := by decide

theorem cleanPush_normal (rooted : Bool) (acc : List Seg) (s : Seg)
    (h : isNormalSeg s = true) : cleanPush rooted acc s = s :: acc := by
  simp only [isNormalSeg, Bool.not_eq_true', Bool.or_eq_false_iff,
    decide_eq_false_iff_not] at h
  simp [cleanPush, h.1.1, h.1.2, h.2]

theorem foldl_cleanPush_normal (rooted : Bool) (l : List Seg) (acc : List Seg)
    (h : ∀ s ∈ l, isNormalSeg s = true) :
    l.foldl (cleanPush rooted) acc = l.reverse ++ acc := by
  induction l generalizing acc with
  | nil => simp
  | cons a l ih =>
      rw [List.foldl_cons, cleanPush_normal rooted acc a (h a (by simp))]
      rw [ih (a :: acc) (fun s hs => h s (by simp [hs]))]
      simp

theorem cleanSegs_normal (rooted : Bool) (l : List Seg)
    (h : ∀ s ∈ l, isNormalSeg s = true) : cleanSegs rooted l = l := by
  rw [cleanSegs, foldl_cleanPush_normal rooted l [] h]
  simp

theorem join_normal (p : GoPath) (qs : List Seg)
    (hp : ∀ s ∈ p.segs, isNormalSeg s = true)
    (hq : ∀ s ∈ qs, isNormalSeg s = true) :
    GoPath.join p ⟨false, qs⟩ = ⟨p.rooted, p.segs ++ qs⟩ := by
  rw [GoPath.join, GoPath.clean]
  have : ∀ s ∈ p.segs ++ qs, isNormalSeg s = true := by
    intro s hs
    rcases List.mem_append.mp hs with h1 | h2
    · exact hp s h1
    · exact hq s h2
  rw [cleanSegs_normal _ _ this]

theorem mkdirAll_files (fs : FS) (p : GoPath) :
    (fs.mkdirAll p).files = fs.files := rfl

theorem write_dirs (fs : FS) (p : GoPath) (c : List Nat) :
    (fs.write p c).dirs = fs.dirs := rfl

theorem mkdirAll_dirs_mono (fs : FS) (p : GoPath) :
    fs.dirs ⊆ (fs.mkdirAll p).dirs := by
  intro q hq
  simp [FS.mkdirAll]
  exact Or.inr hq

theorem mkdirAll_mem_self (fs : FS) (p : GoPath) (h : p.segs ≠ []) :
    p ∈ (fs.mkdirAll p).dirs := by
  have hlen : 0 < p.segs.length := List.length_pos.mpr h
  have : p ∈ prefixesOf p.rooted p.segs := by
    simp only [prefixesOf, List.mem_map, List.mem_range]
    refine ⟨p.segs.length - 1, by omega, ?_⟩
    have : p.segs.length - 1 + 1 = p.segs.length := by omega
    rw [this, List.take_length]
  simp only [FS.mkdirAll, List.mem_append]
  exact Or.inl this

theorem untar_append (dest : GoPath) (xs ys : List TarItem) (fs fs1 : FS)
    (h : untar dest fs xs = (fs1, none)) :
    untar dest fs (xs ++ ys) = untar dest fs1 ys := by
  induction xs generalizing fs with
  | nil =>
      simp only [untar] at h
      cases h
      simp
  | cons x xs ih =>
      cases x with
      | corrupt => simp [untar] at h
      | entry hdr avail =>
          rw [List.cons_append]
          simp only [untar] at h ⊢
          rcases hstep : untarStep dest fs hdr avail with ⟨fs2, oe⟩
          cases oe with
          | none =>
              rw [hstep] at h
              exact ih fs2 h
          | some e =>
              rw [hstep] at h
              simp at h

theorem untar_dirs_mono (dest : GoPath) (items : List TarItem) (fs : FS) :
    fs.dirs ⊆ (untar dest fs items).1.dirs := by
  induction items generalizing fs with
  | nil => simp [untar]
  | cons x rest ih =>
      cases x with
      | corrupt => simp [untar]
      | entry hdr avail =>
          simp only [untar]
          rcases hstep : untarStep dest fs hdr avail with ⟨fs2, oe⟩
          have hmono : fs.dirs ⊆ fs2.dirs := by
            simp only [untarStep] at hstep
            cases hft : hdr.typeflag with
            | dir =>
                rw [hft] at hstep
                simp only at hstep
                cases hstep
                exact mkdirAll_dirs_mono fs _
            | reg =>
                rw [hft] at hstep
                simp only at hstep
                split at hstep <;> cases hstep <;>
                  exact mkdirAll_dirs_mono fs _
            | other =>
                rw [hft] at hstep
                simp only at hstep
                cases hstep
                exact fun q hq => hq
          cases oe with
          | none => exact fun q hq => ih fs2 (hmono hq)
          | some e => exact hmono

theorem untar_cons_corrupt (dest : GoPath) (fs : FS) (rest : List TarItem) :
    untar dest fs (TarItem.corrupt :: rest) = (fs, some UntarError.nextError) := rfl

theorem untar_cons_dir (dest : GoPath) (fs : FS) (hdr : TarHdr)
    (avail : List Nat) (rest : List TarItem) (h : hdr.typeflag = Typeflag.dir) :
    untar dest fs (TarItem.entry hdr avail :: rest) =
      untar dest (fs.mkdirAll (dest.join ⟨false, hdr.name⟩)) rest := by
  simp [untar, untarStep, h]

theorem untar_cons_other (dest : GoPath) (fs : FS) (hdr : TarHdr)
    (avail : List Nat) (rest : List TarItem) (h : hdr.typeflag = Typeflag.other) :
    untar dest fs (TarItem.entry hdr avail :: rest) = untar dest fs rest := by
  simp [untar, untarStep, h]

theorem untar_cons_reg_ok (dest : GoPath) (fs : FS) (hdr : TarHdr)
    (avail : List Nat) (rest : List TarItem) (h : hdr.typeflag = Typeflag.reg)
    (hlen : ¬ avail.length < hdr.size) :
    untar dest fs (TarItem.entry hdr avail :: rest) =
      untar dest
        ((fs.mkdirAll (dest.join ⟨false, hdr.name⟩).dir).write
          (dest.join ⟨false, hdr.name⟩) (avail.take hdr.size)) rest := by
  simp [untar, untarStep, h, hlen]

theorem untar_cons_reg_short (dest : GoPath) (fs : FS) (hdr : TarHdr)
    (avail : List Nat) (rest : List TarItem) (h : hdr.typeflag = Typeflag.reg)
    (hlen : avail.length < hdr.size) :
    untar dest fs (TarItem.entry hdr avail :: rest) =
      ((fs.mkdirAll (dest.join ⟨false, hdr.name⟩).dir).write
          (dest.join ⟨false, hdr.name⟩) (avail.take hdr.size),
        some UntarError.copyError) := by
  simp [untar, untarStep, h, hlen]

theorem lookupAssoc_cons_self (files : List (GoPath × List Nat)) (p : GoPath)
    (c : List Nat) : lookupAssoc ((p, c) :: files) p = some c := by
  simp [lookupAssoc]

theorem lookupAssoc_cons_other (files : List (GoPath × List Nat)) (p q : GoPath)
    (c : List Nat) (h : q ≠ p) :
    lookupAssoc ((q, c) :: files) p = lookupAssoc files p := by
  simp [lookupAssoc, h]

/-- The path a tar item writes a regular file to, if any: used to state
which lookups an `untar` prefix cannot disturb. -/
def itemWriteTarget (dest : GoPath) : TarItem → Option GoPath
  | TarItem.corrupt => none
  | TarItem.entry hdr _ =>
      match hdr.typeflag with
      | Typeflag.reg => some (dest.join ⟨false, hdr.name⟩)
      | _ => none

theorem untar_lookup_preserved (dest : GoPath) (items : List TarItem)
    (fs : FS) (p : GoPath)
    (h : ∀ i ∈ items, itemWriteTarget dest i ≠ some p) :
    lookupAssoc (untar dest fs items).1.files p = lookupAssoc fs.files p := by
  induction items generalizing fs with
  | nil => rfl
  | cons x rest ih =>
      have hrest : ∀ i ∈ rest, itemWriteTarget dest i ≠ some p := by
        intro i hi
        exact h i (by simp [hi])
      cases x with
      | corrupt => rfl
      | entry hdr avail =>
          cases hft : hdr.typeflag with
          | dir =>
              rw [untar_cons_dir dest fs hdr avail rest hft]
              rw [ih _ hrest]
              rfl
          | other =>
              rw [untar_cons_other dest fs hdr avail rest hft]
              exact ih _ hrest
          | reg =>
              have hx : itemWriteTarget dest (TarItem.entry hdr avail) ≠ some p :=
                h _ (by simp)
              have htgt : dest.join ⟨false, hdr.name⟩ ≠ p := by
                intro hc
                apply hx
                simp [itemWriteTarget, hft, hc]
              by_cases hlen : avail.length < hdr.size
              · rw [untar_cons_reg_short dest fs hdr avail rest hft hlen]
                exact lookupAssoc_cons_other _ _ _ _ htgt
              · rw [untar_cons_reg_ok dest fs hdr avail rest hft hlen]
                rw [ih _ hrest]
                exact lookupAssoc_cons_other _ _ _ _ htgt

theorem untar_files_phase (dest : GoPath)
    (hdest : ∀ s ∈ dest.segs, isNormalSeg s = true)
    (l : List (List Seg × List Nat)) (fs : FS)
    (hl : ∀ f ∈ l, ∀ s ∈ f.1, isNormalSeg s = true)
    (hnodup : l.Pairwise (fun a b => a.1 ≠ b.1)) :
    (untar dest fs (l.map mkFileItem)).2 = none ∧
    fs.dirs ⊆ (untar dest fs (l.map mkFileItem)).1.dirs ∧
    (∀ f ∈ l, lookupAssoc (untar dest fs (l.map mkFileItem)).1.files
        ⟨dest.rooted, dest.segs ++ f.1⟩ = some f.2) := by
  induction l generalizing fs with
  | nil => simp [untar]
  | cons f l ih =>
      have hfn : ∀ s ∈ f.1, isNormalSeg s = true := hl f (by simp)
      have hln : ∀ g ∈ l, ∀ s ∈ g.1, isNormalSeg s = true :=
        fun g hg => hl g (by simp [hg])
      have hne : ∀ g ∈ l, f.1 ≠ g.1 := (List.pairwise_cons.mp hnodup).1
      have hnodup2 : l.Pairwise (fun a b => a.1 ≠ b.1) :=
        (List.pairwise_cons.mp hnodup).2
      have htgt : GoPath.join dest ⟨false, f.1⟩ =
          ⟨dest.rooted, dest.segs ++ f.1⟩ := join_normal dest f.1 hdest hfn
      have hstep :
          untar dest fs ((f :: l).map mkFileItem) =
            untar dest
              ((fs.mkdirAll (GoPath.dir ⟨dest.rooted, dest.segs ++ f.1⟩)).write
                ⟨dest.rooted, dest.segs ++ f.1⟩ f.2) (l.map mkFileItem) := by
        rw [List.map_cons]
        rw [show mkFileItem f =
          TarItem.entry ⟨f.1, Typeflag.reg, f.2.length⟩ f.2 from rfl]
        rw [untar_cons_reg_ok dest fs ⟨f.1, Typeflag.reg, f.2.length⟩ f.2
          (l.map mkFileItem) rfl (lt_irrefl _)]
        rw [List.take_length]
        rw [show (⟨f.1, Typeflag.reg, f.2.length⟩ : TarHdr).name = f.1 from rfl]
        rw [htgt]
      obtain ⟨he, hdirs, hlook⟩ :=
        ih ((fs.mkdirAll (GoPath.dir ⟨dest.rooted, dest.segs ++ f.1⟩)).write
          ⟨dest.rooted, dest.segs ++ f.1⟩ f.2) hln hnodup2
      refine ⟨by rw [hstep]; exact he, ?_, ?_⟩
      · rw [hstep]
        intro q hq
        exact hdirs (mkdirAll_dirs_mono fs _ hq)
      · intro g hg
        rcases List.mem_cons.mp hg with hgf | hgl
        · subst hgf
          rw [hstep]
          have hpres : ∀ i ∈ l.map mkFileItem,
              itemWriteTarget dest i ≠
                some (⟨dest.rooted, dest.segs ++ g.1⟩ : GoPath) := by
            intro i hi
            rcases List.mem_map.mp hi with ⟨g2, hg2, rfl⟩
            have heq : itemWriteTarget dest (mkFileItem g2) =
                some (GoPath.join dest ⟨false, g2.1⟩) := rfl
            rw [heq, join_normal dest g2.1 hdest (hln g2 hg2)]
            intro hc
            simp only [Option.some.injEq, GoPath.mk.injEq, true_and] at hc
            exact hne g2 hg2 (List.append_cancel_left hc).symm
          rw [untar_lookup_preserved dest _ _ _ hpres]
          exact lookupAssoc_cons_self _ _ _
        · rw [hstep]
          exact hlook g hgl

theorem untar_dirs_phase (dest : GoPath)
    (hdest : ∀ s ∈ dest.segs, isNormalSeg s = true)
    (l : List (List Seg)) (fs : FS)
    (hl : ∀ d ∈ l, d ≠ [] ∧ ∀ s ∈ d, isNormalSeg s = true) :
    (untar dest fs (l.map mkDirItem)).2 = none ∧
    (untar dest fs (l.map mkDirItem)).1.files = fs.files ∧
    fs.dirs ⊆ (untar dest fs (l.map mkDirItem)).1.dirs ∧
    (∀ d ∈ l, (⟨dest.rooted, dest.segs ++ d⟩ : GoPath) ∈
        (untar dest fs (l.map mkDirItem)).1.dirs) := by
  induction l generalizing fs with
  | nil => simp [untar]
  | cons d l ih =>
      have hdn : d ≠ [] ∧ ∀ s ∈ d, isNormalSeg s = true := hl d (by simp)
      have hln : ∀ g ∈ l, g ≠ [] ∧ ∀ s ∈ g, isNormalSeg s = true :=
        fun g hg => hl g (by simp [hg])
      have htgt : GoPath.join dest ⟨false, d⟩ =
          ⟨dest.rooted, dest.segs ++ d⟩ := join_normal dest d hdest hdn.2
      have hstep :
          untar dest fs ((d :: l).map mkDirItem) =
            untar dest (fs.mkdirAll ⟨dest.rooted, dest.segs ++ d⟩)
              (l.map mkDirItem) := by
        rw [List.map_cons]
        rw [show mkDirItem d = TarItem.entry ⟨d, Typeflag.dir, 0⟩ [] from rfl]
        rw [untar_cons_dir dest fs ⟨d, Typeflag.dir, 0⟩ [] (l.map mkDirItem) rfl]
        rw [show (⟨d, Typeflag.dir, 0⟩ : TarHdr).name = d from rfl]
        rw [htgt]
      obtain ⟨he, hfiles, hdirs, hmem⟩ :=
        ih (fs.mkdirAll ⟨dest.rooted, dest.segs ++ d⟩) hln
      refine ⟨by rw [hstep]; exact he, by rw [hstep]; exact hfiles, ?_, ?_⟩
      · rw [hstep]
        intro q hq
        exact hdirs (mkdirAll_dirs_mono fs _ hq)
      · intro g hg
        rcases List.mem_cons.mp hg with hgd | hgl
        · subst hgd
          rw [hstep]
          refine hdirs ?_
          refine mkdirAll_mem_self fs ⟨dest.rooted, dest.segs ++ g⟩ ?_
          simp [hdn.1]
        · rw [hstep]
          exact hmem g hgl

theorem untar_tarOf (t : SrcTree) (dest : GoPath)
    (hdest : ∀ s ∈ dest.segs, isNormalSeg s = true)
    (hdirs : ∀ d ∈ t.dirs, d ≠ [] ∧ ∀ s ∈ d, isNormalSeg s = true)
    (hfiles : ∀ f ∈ t.files, ∀ s ∈ f.1, isNormalSeg s = true)
    (hnodup : t.files.Pairwise (fun a b => a.1 ≠ b.1)) :
    (untar dest FS.empty (tarOf t)).2 = none ∧
    (∀ d ∈ t.dirs, (⟨dest.rooted, dest.segs ++ d⟩ : GoPath) ∈
        (untar dest FS.empty (tarOf t)).1.dirs) ∧
    (∀ f ∈ t.files, lookupAssoc (untar dest FS.empty (tarOf t)).1.files
        ⟨dest.rooted, dest.segs ++ f.1⟩ = some f.2) := by
  have hroot : GoPath.join dest ⟨false, []⟩ = dest := by
    rw [join_normal dest [] hdest (by simp)]
    simp
  have hstep0 :
      untar dest FS.empty (tarOf t) =
        untar dest (FS.empty.mkdirAll dest)
          (t.dirs.map mkDirItem ++ t.files.map mkFileItem) := by
    rw [tarOf]
    rw [untar_cons_dir dest FS.empty ⟨[], Typeflag.dir, 0⟩ []
      (t.dirs.map mkDirItem ++ t.files.map mkFileItem) rfl]
    rw [show (⟨[], Typeflag.dir, 0⟩ : TarHdr).name = [] from rfl]
    rw [hroot]
  obtain ⟨hde, hdfiles, hddirs, hdmem⟩ :=
    untar_dirs_phase dest hdest t.dirs (FS.empty.mkdirAll dest) hdirs
  have hsplit :
      untar dest (FS.empty.mkdirAll dest)
          (t.dirs.map mkDirItem ++ t.files.map mkFileItem) =
        untar dest (untar dest (FS.empty.mkdirAll dest) (t.dirs.map mkDirItem)).1
          (t.files.map mkFileItem) := by
    refine untar_append dest _ _ _ _ ?_
    rw [← hde]
  obtain ⟨hfe, hfdirs, hflook⟩ :=
    untar_files_phase dest hdest t.files
      (untar dest (FS.empty.mkdirAll dest) (t.dirs.map mkDirItem)).1
      hfiles hnodup
  refine ⟨?_, ?_, ?_⟩
  · rw [hstep0, hsplit]
    exact hfe
  · intro d hd
    rw [hstep0, hsplit]
    exact hfdirs (hdmem d hd)
  · intro f hf
    rw [hstep0, hsplit]
    exact hflook f hf

/-- An environment in which every cluster interaction succeeds and the
remote archiving command streams `items`: used to state properties of
successful runs. -/
def envOk (items : List TarItem) : Env :=
  { clientOk := true
    createOk := true
    get := fun _ => GetResult.pod [(PodCondType.ready, true)]
    exec := { spdyErr := none, streamErr := none, stdout := items, stderr := "" }
    deleteOk := true
    disk := FS.empty }

theorem run_envOk (items : List TarItem) (d : GoPath) :
    (run (envOk items) d).fs = (untar d FS.empty items).1 ∧
    ((run (envOk items) d).err = none ↔ (untar d FS.empty items).2 = none) := by
  rcases hu : untar d FS.empty items with ⟨fs, oe⟩
  cases oe with
  | none => simp [run, envOk, copyFromPod, hu]
  | some e => simp [run, envOk, copyFromPod, hu]

/-- C1: Round-trip — for every source tree of directories and regular
files placed under the mounted volume root (well-formed relative slash
paths, pairwise-distinct file paths), a successful run of the pipeline
(remote archiving of the volume root followed by unpacking into the
destination root) succeeds, every relative directory path of the tree
exists under the destination root, and every regular file exists there
with byte-identical content. -/
theorem c1_roundtrip (t : SrcTree) (dest : GoPath)
    (hdest : ∀ s ∈ dest.segs, isNormalSeg s = true)
    (hdirs : ∀ d ∈ t.dirs, d ≠ [] ∧ ∀ s ∈ d, isNormalSeg s = true)
    (hfiles : ∀ f ∈ t.files, ∀ s ∈ f.1, isNormalSeg s = true)
    (hnodup : t.files.Pairwise (fun a b => a.1 ≠ b.1)) :
    (run (envOk (tarOf t)) dest).err = none ∧
    (∀ d ∈ t.dirs, (⟨dest.rooted, dest.segs ++ d⟩ : GoPath) ∈
        (run (envOk (tarOf t)) dest).fs.dirs) ∧
    (∀ f ∈ t.files, (run (envOk (tarOf t)) dest).fs.lookupFile
        ⟨dest.rooted, dest.segs ++ f.1⟩ = some f.2) := by
  obtain ⟨he, hd, hf⟩ := untar_tarOf t dest hdest hdirs hfiles hnodup
  obtain ⟨hfs, hiff⟩ := run_envOk (tarOf t) dest
  refine ⟨hiff.mpr he, ?_, ?_⟩
  · intro d hdm
    rw [hfs]
    exact hd d hdm
  · intro f hfm
    rw [FS.lookupFile, hfs]
    exact hf f hfm

/-- The source tree of the round-trip witness: one directory and two
regular files, one nested. -/
def treeC1 : SrcTree :=
  ⟨[["collector"]],
   [(["collector", "signals-0001.json"], [1, 2, 3]), (["top.txt"], [9])]⟩

/-- The destination root of the round-trip witness. -/
def destC1 : GoPath := ⟨true, ["export"]⟩

theorem c1_roundtrip_witness :
    (run (envOk (tarOf treeC1)) destC1).err = none ∧
    (⟨destC1.rooted, destC1.segs ++ ["collector"]⟩ : GoPath) ∈
      (run (envOk (tarOf treeC1)) destC1).fs.dirs ∧
    (run (envOk (tarOf treeC1)) destC1).fs.lookupFile
      ⟨destC1.rooted, destC1.segs ++ ["collector", "signals-0001.json"]⟩ =
      some [1, 2, 3] := by
  obtain ⟨h1, h2, h3⟩ :=
    c1_roundtrip treeC1 destC1 (by decide) (by decide) (by decide) (by decide)
  exact ⟨h1, h2 ["collector"] (by decide),
    h3 (["collector", "signals-0001.json"], [1, 2, 3]) (by decide)⟩

/-- A status-fetch trace whose pod never carries a ready-true condition. -/
def neverReadyGet : Nat → GetResult := fun _ => GetResult.pod []

/-- A concrete destination root used by several concrete evaluations. -/
def destEx : GoPath := ⟨true, ["dst"]⟩

/-- The environment of a run whose pod never becomes ready and whose
remote stream then fails. -/
def envC2 : Env :=
  { clientOk := true
    createOk := true
    get := neverReadyGet
    exec := { spdyErr := none, streamErr := some "error dialing backend"
              stdout := [], stderr := "" }
    deleteOk := true
    disk := FS.empty }

/-- C2: on a pod that never reports ready, the readiness poll does yield
its timeout error exactly at the 120-second deadline (within one
2-second poll interval of it), but `run` discards that outcome: the
streaming stage is still invoked, so the timeout does not abort the run
before streaming — the code diverges from the claim's abort clause. -/
theorem c2_timeout_ignored :
    waitForPodReady neverReadyGet = WaitResult.errTimeout 120 ∧
    (120 ≤ 120 ∧ 120 ≤ 120 + 2) ∧
    (run envC2 destEx).waitCalled = true ∧
    (run envC2 destEx).streamCalled = true ∧
    (run envC2 destEx).err =
      some (RunError.copyError (CopyError.streamError "error dialing backend" "")) := by
  decide

/-- The environment of a run whose pod never becomes ready but whose
remote stream and unpacking nevertheless succeed. -/
def envC3 : Env :=
  { clientOk := true
    createOk := true
    get := neverReadyGet
    exec := { spdyErr := none, streamErr := none, stdout := [], stderr := "" }
    deleteOk := true
    disk := FS.empty }

/-- C3 counterexample: a run in which a stage after workload creation
fails — the readiness wait times out — yet `Pods.Delete` is still
invoked, because the wait's error is discarded and the stream succeeds. -/
theorem c3_counterexample :
    waitForPodReady envC3.get = WaitResult.errTimeout 120 ∧
    (run envC3 destEx).deleteCalled = true ∧
    (run envC3 destEx).err = none := by
  decide

/-- C3 amended: stages run in sequence, but the readiness wait cannot
fail the run: the streaming stage is reached exactly when the session
and the creation succeed, and the delete stage is invoked exactly when
session, creation and the exec+stream+unpack stage succeed — the
readiness outcome plays no part. In particular a failure of the
stream/unpack stage (or earlier) means delete is never called. -/
theorem c3_amended (env : Env) (d : GoPath) :
    ((run env d).streamCalled = true ↔
      (env.clientOk = true ∧ env.createOk = true)) ∧
    ((run env d).deleteCalled = true ↔
      (env.clientOk = true ∧ env.createOk = true ∧
        (copyFromPod env.exec d env.disk).2 = none)) := by
  cases hc : env.clientOk with
  | false => simp [run, hc]
  | true =>
      cases hcr : env.createOk with
      | false => simp [run, hc, hcr]
      | true =>
          rcases hcp : copyFromPod env.exec d env.disk with ⟨fs, oe⟩
          cases oe with
          | none => cases hd : env.deleteOk <;> simp [run, hc, hcr, hcp, hd]
          | some e => simp [run, hc, hcr, hcp]

/-- C4 counterexample: the context `run` creates and passes to the
readiness poll and to the remote stream is `context.Background()`, which
carries no cancellation capability — there is no shared cancellation
signal propagated from process start that could abort those calls. -/
theorem c4_counterexample : GoContext.cancellable runCtx = false := rfl

/-- C4 amended: `run` uses the background context for both blocking
stages; the background context is exactly the non-cancellable one, so no
cancellation signal can ever abort the readiness poll or the remote
stream. -/
theorem c4_amended :
    runCtx = GoContext.background ∧
    GoContext.cancellable runCtx = false ∧
    (∀ c : GoContext, GoContext.cancellable c = false ↔ c = GoContext.background) := by
  refine ⟨rfl, rfl, ?_⟩
  intro c
  cases c <;> simp [GoContext.cancellable]

/-- A status-fetch trace returning not-found at the first poll and a
ready pod from every later poll. -/
def getC5 : Nat → GetResult := fun t =>
  if t = 0 then GetResult.notFound else GetResult.pod [(PodCondType.ready, true)]

/-- C5 counterexample: a not-found status fetch right after creation
aborts the wait immediately with the fetch error at time 0 — polling
does not continue to the next tick, where the pod would have been
observed ready. -/
theorem c5_counterexample :
    waitForPodReady getC5 = WaitResult.errFetch 0 ∧
    waitForPodReady getC5 ≠ WaitResult.ok 2 := by
  decide

/-- C5 amended: a status fetch returning not-found is propagated like
any other fetch error: the condition function returns the error, and
`PollUntilContextTimeout` stops at once — a not-found at the first
attempt ends the wait at time 0 instead of being treated as "not yet
ready". -/
theorem c5_amended (get : Nat → GetResult) (h : get 0 = GetResult.notFound) :
    waitForPodReady get = WaitResult.errFetch 0 := by
  have h0 : podReadyCondition (get 0) = FetchResult.fetchErr := by
    rw [h]
    rfl
  show pollLoop (fun t => podReadyCondition (get t)) 2 120 0 ((120 + 2 - 1) / 2) =
    WaitResult.errFetch 0
  rw [show (120 + 2 - 1) / 2 = Nat.succ 59 from rfl]
  rw [pollLoop]
  simp [h0]

theorem c5_amended_witness : waitForPodReady getC5 = WaitResult.errFetch 0 :=
  c5_amended getC5 rfl

/-- C6: unpacker entry handling — an entry whose kind is neither
directory nor regular file is skipped silently and the remaining entries
are processed as if it were absent; an exhausted stream returns success;
and after any cleanly processed prefix, the first malformed entry stops
unpacking with the read error, leaving the state reached so far. -/
theorem c6_entry_handling (dest : GoPath) (fs : FS) :
    (∀ (hdr : TarHdr) (avail : List Nat) (rest : List TarItem),
      hdr.typeflag = Typeflag.other →
        untar dest fs (TarItem.entry hdr avail :: rest) = untar dest fs rest) ∧
    untar dest fs [] = (fs, none) ∧
    (∀ (pre rest : List TarItem) (fs1 : FS),
      untar dest fs pre = (fs1, none) →
        untar dest fs (pre ++ TarItem.corrupt :: rest) =
          (fs1, some UntarError.nextError)) := by
  refine ⟨?_, rfl, ?_⟩
  · intro hdr avail rest h
    exact untar_cons_other dest fs hdr avail rest h
  · intro pre rest fs1 h
    rw [untar_append dest pre _ fs fs1 h, untar_cons_corrupt]

/-- The destination root of the entry-handling witness. -/
def destC6 : GoPath := ⟨true, ["u"]⟩

theorem c6_witness :
    untar destC6 FS.empty
        [TarItem.entry ⟨["lnk"], Typeflag.other, 0⟩ [],
         TarItem.entry ⟨["f"], Typeflag.reg, 1⟩ [5]] =
      untar destC6 FS.empty [TarItem.entry ⟨["f"], Typeflag.reg, 1⟩ [5]] ∧
    untar destC6 FS.empty [] = (FS.empty, none) ∧
    untar destC6 FS.empty ([] ++ TarItem.corrupt :: []) =
      (FS.empty, some UntarError.nextError) := by
  obtain ⟨h1, h2, h3⟩ := c6_entry_handling destC6 FS.empty
  exact ⟨h1 _ _ _ rfl, h2, h3 [] [] FS.empty rfl⟩

/-- The destination root of the path-traversal evaluation. -/
def destC7 : GoPath := ⟨true, ["out"]⟩

/-- A regular-file entry whose relative path climbs out of the
destination root with a parent-directory segment. -/
def evilItem : TarItem := TarItem.entry ⟨["..", "evil"], Typeflag.reg, 2⟩ [7, 7]

/-- C7: the unpacker computes the target as `path.Join(dest, hdr.Name)`
with no traversal sanitization: for an entry named `../evil` under
destination `/out` the joined target resolves to `/evil`, outside the
destination root, and the file is written there successfully instead of
being rejected. -/
theorem c7_path_traversal :
    GoPath.join destC7 ⟨false, ["..", "evil"]⟩ = ⟨true, ["evil"]⟩ ∧
    ¬ destC7.segs <+: (GoPath.join destC7 ⟨false, ["..", "evil"]⟩).segs ∧
    untar destC7 FS.empty [evilItem] =
      (⟨[], [(⟨true, ["evil"]⟩, [7, 7])]⟩, none) ∧
    (untar destC7 FS.empty [evilItem]).1.lookupFile ⟨true, ["evil"]⟩ =
      some [7, 7] := by
  refine ⟨by decide, ?_, by decide, by decide⟩
  intro hpre
  rcases hpre with ⟨tl, htl⟩
  rw [show GoPath.join destC7 ⟨false, ["..", "evil"]⟩ = ⟨true, ["evil"]⟩
    from by decide] at htl
  simp only [destC7] at htl
  have hh := congrArg (fun l => l.head?) htl
  simp at hh

/-- C8: empty source — with an archive stream carrying no file content
(the bare root-directory entry an archiving run over an empty volume
emits), the run succeeds, the destination root exists afterwards, and it
is empty: no files, and every directory present is the destination root
or one of its ancestors. -/
theorem c8_empty_source (dest : GoPath)
    (hdest : ∀ s ∈ dest.segs, isNormalSeg s = true) (hne : dest.segs ≠ []) :
    (run (envOk (tarOf ⟨[], []⟩)) dest).err = none ∧
    dest ∈ (run (envOk (tarOf ⟨[], []⟩)) dest).fs.dirs ∧
    (run (envOk (tarOf ⟨[], []⟩)) dest).fs.files = [] ∧
    (∀ p ∈ (run (envOk (tarOf ⟨[], []⟩)) dest).fs.dirs,
      p.rooted = dest.rooted ∧ p.segs <+: dest.segs) := by
  have hroot : GoPath.join dest ⟨false, []⟩ = dest := by
    rw [join_normal dest [] hdest (by simp)]
    simp
  have huntar : untar dest FS.empty (tarOf ⟨[], []⟩) =
      (FS.empty.mkdirAll dest, none) := by
    rw [tarOf]
    simp only [List.map_nil, List.append_nil]
    rw [untar_cons_dir dest FS.empty ⟨[], Typeflag.dir, 0⟩ [] [] rfl]
    rw [show (⟨[], Typeflag.dir, 0⟩ : TarHdr).name = ([] : List Seg) from rfl]
    rw [hroot]
    rfl
  obtain ⟨hfs, hiff⟩ := run_envOk (tarOf ⟨[], []⟩) dest
  rw [huntar] at hfs hiff
  refine ⟨hiff.mpr rfl, ?_, ?_, ?_⟩
  · rw [hfs]
    exact mkdirAll_mem_self FS.empty dest hne
  · rw [hfs]
    rfl
  · intro p hp
    rw [hfs] at hp
    simp only [FS.mkdirAll, FS.empty, prefixesOf, List.append_nil,
      List.mem_map, List.mem_range] at hp
    rcases hp with ⟨i, hi, rfl⟩
    exact ⟨rfl, List.take_prefix _ _⟩

/-- The destination root of the empty-source witness. -/
def destC8 : GoPath := ⟨true, ["outdir"]⟩

theorem c8_witness :
    (run (envOk (tarOf ⟨[], []⟩)) destC8).err = none ∧
    destC8 ∈ (run (envOk (tarOf ⟨[], []⟩)) destC8).fs.dirs ∧
    (run (envOk (tarOf ⟨[], []⟩)) destC8).fs.files = [] := by
  obtain ⟨h1, h2, h3, _⟩ := c8_empty_source destC8 (by decide) (by decide)
  exact ⟨h1, h2, h3⟩

/-- C9: stream failure diagnostics — with the executor built, a stream
error (nonzero remote exit or transport error) makes `copyFromPod` fail
with an error carrying the captured standard-error text, and on stream
success the full buffered standard output is handed to the unpacker,
whose outcome becomes the call's outcome. -/
theorem c9_stream_diagnostics (ex : RemoteExec) (d : GoPath) (disk : FS)
    (hspdy : ex.spdyErr = none) :
    (∀ m, ex.streamErr = some m →
      copyFromPod ex d disk = (disk, some (CopyError.streamError m ex.stderr))) ∧
    (ex.streamErr = none →
      copyFromPod ex d disk =
        ((untar d disk ex.stdout).1,
          (untar d disk ex.stdout).2.map CopyError.archiveError)) := by
  constructor
  · intro m hm
    simp [copyFromPod, hspdy, hm]
  · intro hs
    rcases hu : untar d disk ex.stdout with ⟨fs, oe⟩
    cases oe <;> simp [copyFromPod, hspdy, hs, hu]

/-- A failing remote execution: nonzero exit, diagnostic on stderr. -/
def exC9err : RemoteExec :=
  { spdyErr := none
    streamErr := some "command terminated with exit code 1"
    stdout := []
    stderr := "tar: short read" }

/-- A successful remote execution whose stdout holds one malformed
entry. -/
def exC9ok : RemoteExec :=
  { spdyErr := none, streamErr := none, stdout := [TarItem.corrupt], stderr := "" }

theorem c9_witness :
    copyFromPod exC9err destEx FS.empty =
      (FS.empty,
        some (CopyError.streamError "command terminated with exit code 1"
          "tar: short read")) ∧
    copyFromPod exC9ok destEx FS.empty =
      ((untar destEx FS.empty exC9ok.stdout).1,
        (untar destEx FS.empty exC9ok.stdout).2.map CopyError.archiveError) := by
  obtain ⟨h1, _⟩ := c9_stream_diagnostics exC9err destEx FS.empty rfl
  obtain ⟨_, h4⟩ := c9_stream_diagnostics exC9ok destEx FS.empty rfl
  exact ⟨h1 _ rfl, h4 rfl⟩

/-- C10: no rollback on unpack failure — after a cleanly processed
prefix has materialized state `fs1`, a malformed entry stops `untar`
returning exactly `fs1` (everything already materialized remains), and a
regular-file entry whose content is cut short by the stream leaves the
parent directories created and the partial file holding exactly the
bytes copied so far, again with no restoration of the prior state. -/
theorem c10_no_rollback (dest : GoPath) (fs fs1 : FS) (pre rest : List TarItem)
    (hdr : TarHdr) (avail : List Nat)
    (hpre : untar dest fs pre = (fs1, none)) :
    untar dest fs (pre ++ TarItem.corrupt :: rest) =
      (fs1, some UntarError.nextError) ∧
    (hdr.typeflag = Typeflag.reg → avail.length < hdr.size →
      untar dest fs (pre ++ TarItem.entry hdr avail :: rest) =
        ((fs1.mkdirAll (GoPath.dir (GoPath.join dest ⟨false, hdr.name⟩))).write
            (GoPath.join dest ⟨false, hdr.name⟩) avail,
          some UntarError.copyError) ∧
      (untar dest fs (pre ++ TarItem.entry hdr avail :: rest)).1.lookupFile
          (GoPath.join dest ⟨false, hdr.name⟩) = some avail) := by
  constructor
  · rw [untar_append dest pre _ fs fs1 hpre, untar_cons_corrupt]
  · intro hft hlen
    have htake : avail.take hdr.size = avail :=
      List.take_of_length_le (le_of_lt hlen)
    have heq : untar dest fs (pre ++ TarItem.entry hdr avail :: rest) =
        ((fs1.mkdirAll (GoPath.dir (GoPath.join dest ⟨false, hdr.name⟩))).write
            (GoPath.join dest ⟨false, hdr.name⟩) avail,
          some UntarError.copyError) := by
      rw [untar_append dest pre _ fs fs1 hpre,
        untar_cons_reg_short dest fs1 hdr avail rest hft hlen, htake]
    refine ⟨heq, ?_⟩
    rw [heq]
    exact lookupAssoc_cons_self _ _ _

/-- The destination root of the no-rollback witness. -/
def destC10 : GoPath := ⟨true, ["w"]⟩

/-- A cleanly processed prefix: one directory entry. -/
def preC10 : List TarItem := [TarItem.entry ⟨["a"], Typeflag.dir, 0⟩ []]

/-- The state `preC10` materializes under `destC10` from an empty disk. -/
def fs1C10 : FS := ⟨[⟨true, ["w"]⟩, ⟨true, ["w", "a"]⟩], []⟩

/-- A regular-file header whose 5 declared bytes exceed the 2 delivered. -/
def hdrC10 : TarHdr := ⟨["b"], Typeflag.reg, 5⟩

theorem c10_witness :
    untar destC10 FS.empty (preC10 ++ TarItem.corrupt :: []) =
      (fs1C10, some UntarError.nextError) ∧
    untar destC10 FS.empty (preC10 ++ TarItem.entry hdrC10 [1, 2] :: []) =
      ((fs1C10.mkdirAll (GoPath.dir (GoPath.join destC10 ⟨false, hdrC10.name⟩))).write
          (GoPath.join destC10 ⟨false, hdrC10.name⟩) [1, 2],
        some UntarError.copyError) ∧
    (untar destC10 FS.empty (preC10 ++ TarItem.entry hdrC10 [1, 2] :: [])).1.lookupFile
        (GoPath.join destC10 ⟨false, hdrC10.name⟩) = some [1, 2] := by
  obtain ⟨h1, h2⟩ :=
    c10_no_rollback destC10 FS.empty fs1C10 preC10 [] hdrC10 [1, 2] (by decide)
  obtain ⟨h2a, h2b⟩ := h2 rfl (by decide)
  exact ⟨h1, h2a, h2b⟩
